import Mathlib

/-!
Shallow embedding of the streaming conversational-agent orchestrator of
`jupyterlite-ai` (`src/chat-handler.ts`), together with theorems checking the
natural-language specification against it.

The embedding translates the TypeScript source directly:
* langchain `BaseMessage` values become the `BaseMessage` inductive;
* the display-facing `IChatMessage` objects become the `IChatMessage`
  structure (ids are modelled as natural numbers standing for the UUIDs);
* `ChatHandler.sendMessage` restricted to the chat-mode backend path becomes
  `sendMessageChat`; `_sendAgentMessage` becomes `runAgentChunks` plus
  `sendAgentMessage`; the `updateMessage` closure becomes `renderBody`;
* an asynchronous stream is modelled by the list of chunks it yields before
  terminating plus a terminal outcome (natural completion, or a thrown
  error; the `cancelled` flag marks an error raised by aborting the
  `AbortController` from `stopStreaming` — the handler code itself never
  inspects that flag, exactly as the `catch` blocks in the source never
  distinguish an abort from any other stream failure);
* `Date.now()` readings are modelled by an arbitrary clock function
  `Nat → Int` sampled at an incrementing tick counter, so that theorems can
  quantify over deliberately tied or skewed timestamps.
-/

namespace JLAI

/-- One tool call carried by an AI message.  The `args` field holds the
pretty-printed structured arguments (the source renders them through
`JSON.stringify(args, null, 2)`; the stringified form is what the rendering
consumes, so the embedding stores that string directly). -/
structure ToolCall where
  name : String
  args : String
deriving DecidableEq

/-- One element of an array-shaped langchain message content. -/
inductive ContentPart
  | text (s : String)
  | other
deriving DecidableEq

/-- Langchain message content: either a plain string or an array of parts
(the source checks `typeof message.content === 'string'` and
`Array.isArray(message.content)`). -/
inductive MsgContent
  | str (s : String)
  | parts (l : List ContentPart)
deriving DecidableEq

/-- Normalized backend-facing history entries (langchain `SystemMessage`,
`HumanMessage`, `AIMessage`, `ToolMessage`). A chat-mode `AIMessage(text)`
is `ai [] (.str text)`. -/
inductive BaseMessage
  | system (content : String)
  | human (content : String)
  | ai (toolCalls : List ToolCall) (content : MsgContent)
  | tool (name : String) (content : String)
deriving DecidableEq

/-- Whether two messages have the same role, the grouping key of the
merge rule. -/
def sameRole : BaseMessage → BaseMessage → Bool
  | .system _, .system _ => true
  | .human _, .human _ => true
  | .ai _ _, .ai _ _ => true
  | .tool _ _, .tool _ _ => true
  | _, _ => false

/-- View any content as a list of parts, used when merging mixed contents. -/
def toParts : MsgContent → List ContentPart
  | .str s => [.text s]
  | .parts l => l

/-- Concatenation of two message contents. -/
def concatContent : MsgContent → MsgContent → MsgContent
  | .str a, .str b => .str (a ++ b)
  | a, b => .parts (toParts a ++ toParts b)

/-- Merge two same-role messages into one logical entry. -/
def mergeTwo : BaseMessage → BaseMessage → BaseMessage
  | .system a, .system b => .system (a ++ b)
  | .human a, .human b => .human (a ++ b)
  | .ai tca ca, .ai tcb cb => .ai (tca ++ tcb) (concatContent ca cb)
  | .tool n a, .tool _ b => .tool n (a ++ b)
  | a, _ => a

/-- Modelled from the spec: the `mergeMessageRuns` helper imported from the
langchain core library (not part of the sources here).  Per the spec merge
rule, consecutive entries of identical role are concatenated into one
logical entry before transmission. -/
def mergeMessageRuns (l : List BaseMessage) : List BaseMessage :=
  l.foldr
    (fun m acc =>
      match acc with
      | [] => [m]
      | b :: rest => if sameRole m b then mergeTwo m b :: rest else m :: b :: rest)
    []

/-- A display-facing chat message (`IChatMessage` of jupyter-chat): the id
stands for the UUID, the sender for the `sender.username` field. -/
structure IChatMessage where
  id : Nat
  body : String
  sender : String
deriving DecidableEq

/-- Display semantics of `messageAdded` in the jupyter-chat collaborator
(external interface per the spec): publishing a message whose id is already
displayed replaces that message in place, otherwise the message is appended. -/
def upsertMessage (msgs : List IChatMessage) (m : IChatMessage) : List IChatMessage :=
  if msgs.any (fun x => x.id == m.id) then
    msgs.map (fun x => if x.id == m.id then m else x)
  else msgs ++ [m]

/-- The mutable state of a `ChatHandler` that the claims are about: the
displayed message list and the backend-facing `_history` buffer. -/
structure HandlerState where
  displayed : List IChatMessage
  history : List BaseMessage
deriving DecidableEq

/-- Terminal outcome of consuming a stream: `completed` for natural
termination of the `for await` loop, `errored reason cancelled` for a thrown
exception (the `cancelled` flag marks an exception raised because
`stopStreaming` aborted the `AbortController`; the source code never reads
this distinction — both land in the same `catch`). -/
inductive StreamOutcome
  | completed
  | errored (reason : String) (cancelled : Bool)
deriving DecidableEq

/-- A chat-mode stream: the text deltas yielded before termination, and how
the stream terminated. -/
structure ChatStream where
  deltas : List String
  outcome : StreamOutcome
deriving DecidableEq

/-- Modelled from the spec: `formatErrorMessage` of the provider registry
(`IAIProviderRegistry`, whose implementation is not among the sources here).
The spec only requires that a stream failure is reported through a
backend-specific error formatter applied to the failure reason, so the
formatter is modelled as the identity on the reason text. -/
def formatErrorMessage (reason : String) : String := reason

/-- JS `String.prototype.startsWith`, the case-sensitive prefix test used by
the `/clear` detection. -/
def jsStartsWith (s pre : String) : Bool := pre.data.isPrefixOf s.data

/-- The user message object built at the top of `sendMessage`. -/
def userMsgOf (body : String) (idBase : Nat) : IChatMessage :=
  { id := idBase, body := body, sender := "User" }

/-- Body of the error message emitted when no chat model is configured:
`**${this._errorMessage ? this._errorMessage : this._defaultErrorMessage}**`
(an empty registry diagnostic is falsy in JS, selecting the default). -/
def noBackendBody (errorMessage : String) : String :=
  "**" ++ (if errorMessage = "" then "AI provider not configured" else errorMessage) ++ "**"

/-- The successive republications of the bot message while the chat-mode
loop concatenates deltas: after the k-th delta the body is the concatenation
of the first k deltas. -/
def chatBotUpdates (idBot : Nat) (deltas : List String) : List IChatMessage :=
  (List.range deltas.length).map
    (fun k => { id := idBot, body := String.join (deltas.take (k + 1)), sender := "AI" })

/-- Result of one `sendMessage` call: the new handler state, the returned
boolean, the sequence of `messageAdded` calls made during the turn, and the
request transmitted to the backend (`none` when no backend was contacted). -/
structure SendResult where
  state : HandlerState
  returned : Bool
  emitted : List IChatMessage
  request : Option (List BaseMessage)
deriving DecidableEq

/-- `ChatHandler.sendMessage` followed by `_sentChatMessage`, i.e. the send
path when the registry exposes no agent (chat mode).  Parameters:
`chatAvailable` models `this.chatModel !== null`, `errorMessage` the registry
diagnostic `this._errorMessage`, `systemPrompt` the computed system prompt,
`stream` the chat-model stream, `idBase` the first fresh UUID. -/
def sendMessageChat (st : HandlerState) (body : String) (chatAvailable : Bool)
    (errorMessage systemPrompt : String) (stream : ChatStream) (idBase : Nat) :
    SendResult :=
  if jsStartsWith body "/clear" then
    { state := { displayed := [], history := [] }, returned := false,
      emitted := [], request := none }
  else
    let msg := userMsgOf body idBase
    let d1 := upsertMessage st.displayed msg
    if !chatAvailable then
      let errMsg : IChatMessage :=
        { id := idBase + 1, body := noBackendBody errorMessage, sender := "ERROR" }
      { state := { displayed := upsertMessage d1 errMsg, history := st.history },
        returned := false, emitted := [msg, errMsg], request := none }
    else
      let req := mergeMessageRuns (BaseMessage.system systemPrompt :: st.history)
          ++ [BaseMessage.human body]
      let hist1 := st.history ++ [BaseMessage.human body]
      let updates := chatBotUpdates (idBase + 1) stream.deltas
      let d2 := updates.foldl upsertMessage d1
      match stream.outcome with
      | .completed =>
        { state := { displayed := d2,
                     history := hist1
                       ++ [BaseMessage.ai [] (.str (String.join stream.deltas))] },
          returned := true, emitted := msg :: updates, request := some req }
      | .errored reason _ =>
        let errMsg : IChatMessage :=
          { id := idBase + 2, body := "**" ++ formatErrorMessage reason ++ "**",
            sender := "ERROR" }
        { state := { displayed := upsertMessage d2 errMsg, history := hist1 },
          returned := false, emitted := (msg :: updates) ++ [errMsg],
          request := some req }

/-- Kind tag of a chronological aggregation item
(`'tool_call' | 'tool_result' | 'thinking'`). -/
inductive ChronKind
  | tool_call
  | tool_result
  | thinking
deriving DecidableEq

/-- One chronological item of the agent-mode aggregation.  `name` is the tool
name (unused for thinking items), `payload` the stringified arguments of a
tool call, the content of a tool result, or the accumulated thinking text;
`timestamp` the `Date.now()` reading taken when the item was pushed. -/
structure ChronItem where
  kind : ChronKind
  name : String
  payload : String
  timestamp : Int
deriving DecidableEq

/-- The mutable state threaded through `_sendAgentMessage`:
`chronologicalItems`, `finalResponse`, `messageContent`, `isStreaming`, the
`_history` buffer, and the tick counter indexing successive `Date.now()`
readings into the clock function. -/
structure AgentState where
  items : List ChronItem
  finalResponse : String
  messageContent : String
  isStreaming : Bool
  history : List BaseMessage
  tick : Nat
deriving DecidableEq

/-- The initial aggregation state at the top of `_sendAgentMessage`, over a
given starting history buffer. -/
def agentInit (hist : List BaseMessage) : AgentState :=
  { items := [], finalResponse := "", messageContent := "", isStreaming := false,
    history := hist, tick := 0 }

/-- Whether an item is a tool call or tool result, the test
`item.type === 'tool_call' || item.type === 'tool_result'` that decides the
thinking-versus-final-answer classification. -/
def isToolItem (it : ChronItem) : Bool :=
  it.kind == .tool_call || it.kind == .tool_result

/-- Whether any tool call or tool result item already exists. -/
def hasToolItem (items : List ChronItem) : Bool := items.any isToolItem

/-- Whether an item is a thinking item. -/
def isThinking (it : ChronItem) : Bool := it.kind == .thinking

/-- Mutation `existingThinking.data.content = messageContent`: replace the
payload of the first thinking item, leaving its timestamp and position. -/
def updateFirstThinking (c : String) : List ChronItem → List ChronItem
  | [] => []
  | it :: rest =>
    if isThinking it then { it with payload := c } :: rest
    else it :: updateFirstThinking c rest

/-- JS truthiness of `content.trim()`: the text contains at least one
non-whitespace character. -/
def hasNonWhitespace (s : String) : Bool := s.data.any (fun c => !c.isWhitespace)

/-- Processing of one extracted text content inside the AI-message branch:
skip whitespace-only text; classify as thinking when a tool call or tool
result item already exists (accumulating into `messageContent` and updating
or appending the single thinking item), otherwise append to the final
response accumulator. -/
def processContent (clock : Nat → Int) (s : AgentState) (c : String) : AgentState :=
  if hasNonWhitespace c then
    if hasToolItem s.items then
      let mc := s.messageContent ++ c
      if s.items.any isThinking then
        { s with messageContent := mc, items := updateFirstThinking mc s.items,
                 isStreaming := true }
      else
        { s with messageContent := mc,
                 items := s.items ++ [{ kind := .thinking, name := "", payload := mc, timestamp := clock s.tick }],
                 tick := s.tick + 1, isStreaming := true }
    else
      { s with finalResponse := s.finalResponse ++ c, isStreaming := true }
  else s

/-- The text contents extracted from a message content: a plain string gives
itself, an array gives the `text` fields of its text-typed parts. -/
def extractContents : MsgContent → List String
  | .str s => [s]
  | .parts l => l.filterMap (fun p => match p with | .text t => some t | .other => none)

/-- JS truthiness of `message.content`: an empty string is falsy, an array is
always truthy. -/
def contentTruthy : MsgContent → Bool
  | .str s => !s.data.isEmpty
  | .parts _ => true

/-- Push one chronological tool-call item per tool call of an AI message,
each stamped with its own `Date.now()` reading. -/
def pushToolCalls (clock : Nat → Int) (s : AgentState) (tcs : List ToolCall) : AgentState :=
  tcs.foldl
    (fun s tc =>
      { s with items := s.items ++ [{ kind := .tool_call, name := tc.name, payload := tc.args, timestamp := clock s.tick }],
               tick := s.tick + 1 })
    s

/-- The unconditional history push at the top of the per-message loop:
`this._history.push(message)`. -/
def aiHistoryStep (s : AgentState) (tcs : List ToolCall) (content : MsgContent) :
    AgentState :=
  { s with history := s.history ++ [BaseMessage.ai tcs content] }

/-- The tool-call branch of one AI message: when the message carries tool
calls, push one chronological item per call and mark streaming. -/
def aiToolCallStep (clock : Nat → Int) (s : AgentState) (tcs : List ToolCall) :
    AgentState :=
  if !tcs.isEmpty then { pushToolCalls clock s tcs with isStreaming := true } else s

/-- Handling of one `AIMessage` in the agent channel: push it to history,
emit tool-call items when it carries tool calls, then process its text
contents when the content is truthy. -/
def processAIMessage (clock : Nat → Int) (s : AgentState) (tcs : List ToolCall)
    (content : MsgContent) : AgentState :=
  if contentTruthy content then
    (extractContents content).foldl (processContent clock)
      (aiToolCallStep clock (aiHistoryStep s tcs content) tcs)
  else aiToolCallStep clock (aiHistoryStep s tcs content) tcs

/-- Handling of one `ToolMessage`: push it to history and emit a tool-result
item whose stored name defaults to `Unknown` when the message name is falsy. -/
def processToolMessage (clock : Nat → Int) (s : AgentState) (name content : String) :
    AgentState :=
  { s with history := s.history ++ [BaseMessage.tool name content],
           items := s.items ++ [{ kind := .tool_result, name := if name.data.isEmpty then "Unknown" else name, payload := content, timestamp := clock s.tick }],
           tick := s.tick + 1, isStreaming := true }

/-- One message inside an agent-mode stream chunk. -/
inductive AgentMsg
  | ai (toolCalls : List ToolCall) (content : MsgContent)
  | tool (name : String) (content : String)
deriving DecidableEq

/-- One chunk of the agent stream under `streamMode: 'updates'`: either an
agent step carrying `chunk.agent.messages` or a tool step carrying
`chunk.tools.messages`. -/
inductive AgentChunk
  | agent (msgs : List AgentMsg)
  | tools (msgs : List AgentMsg)
deriving DecidableEq

/-- Handling of one message of an agent-channel chunk: AI messages take the
full AI branch, tool messages the `instanceof ToolMessage` branch. -/
def processAgentChannelMsg (clock : Nat → Int) (s : AgentState) : AgentMsg → AgentState
  | .ai tcs content => processAIMessage clock s tcs content
  | .tool name content => processToolMessage clock s name content

/-- Handling of one message of a tools-channel chunk: every message is pushed
to history, but only tool messages produce a chronological item. -/
def processToolsChannelMsg (clock : Nat → Int) (s : AgentState) : AgentMsg → AgentState
  | .ai tcs content => { s with history := s.history ++ [BaseMessage.ai tcs content] }
  | .tool name content => processToolMessage clock s name content

/-- Consume one stream chunk. -/
def processChunk (clock : Nat → Int) (s : AgentState) : AgentChunk → AgentState
  | .agent msgs => msgs.foldl (processAgentChannelMsg clock) s
  | .tools msgs => msgs.foldl (processToolsChannelMsg clock) s

/-- Consume the whole agent-mode stream. -/
def runAgentChunks (clock : Nat → Int) (s : AgentState) (chunks : List AgentChunk) :
    AgentState :=
  chunks.foldl (processChunk clock) s

/-- The ordering the items are sorted by in `updateMessage`:
`(a, b) => a.timestamp - b.timestamp`. -/
def tsLE (a b : ChronItem) : Prop := a.timestamp ≤ b.timestamp

instance : DecidableRel tsLE := fun a b =>
  inferInstanceAs (Decidable (a.timestamp ≤ b.timestamp))

instance : IsTotal ChronItem tsLE := ⟨fun a b => Int.le_total a.timestamp b.timestamp⟩

instance : IsTrans ChronItem tsLE := ⟨fun _ _ _ h1 h2 => le_trans h1 h2⟩

/-- The sort `[...chronologicalItems].sort((a, b) => a.timestamp - b.timestamp)`
on a copy of the item list.  JS `Array.prototype.sort` is stable, i.e. it
produces the unique permutation that is ordered by timestamp and keeps
arrival order among equal timestamps; insertion sort computes exactly that
permutation. -/
def sortItems (items : List ChronItem) : List ChronItem :=
  List.insertionSort tsLE items

/-- Rendering of one tool-call item. -/
def renderToolCallBlock (name args : String) : String :=
  "<details class=\"jp-ai-tool-call\">\n<summary>🔧 <strong>Using tool: " ++ name
    ++ "</strong></summary>\n\n```json\n" ++ args ++ "\n```\n</details>\n\n"

/-- Rendering of one tool-result item.  The `jsonCommand` parameter models the
JS builtin computation `JSON.parse(item.data.content).command`: it returns
`some cmd` when the content parses as structured data with a truthy `command`
field; both a parse failure and a parse without such a field fall back to the
stored tool name (with the generic label for a falsy name). -/
def renderToolResultBlock (jsonCommand : String → Option String)
    (name content : String) : String :=
  let title := match jsonCommand content with
    | some cmd => cmd
    | none => if name.data.isEmpty then "Tool Result" else name
  "<details class=\"jp-ai-tool-result\">\n<summary>📋 <strong>" ++ title
    ++ "</strong></summary>\n\n```\n" ++ content ++ "\n```\n</details>\n\n"

/-- Rendering of one thinking item: bare text when it is the only
chronological item, otherwise a collapsible block that is auto-expanded
exactly when no non-thinking item exists. -/
def renderThinkingBlock (allItems : List ChronItem) (content : String) : String :=
  if allItems.length == 1 then content
  else
    "<details class=\"jp-ai-thinking\" "
      ++ (if (allItems.filter (fun i => !isThinking i)).length == 0 then "open" else "")
      ++ ">\n<summary>💭 <strong>Thinking</strong></summary>\n\n" ++ content
      ++ "\n</details>\n\n"

/-- Rendering of one chronological item (the `switch` of `updateMessage`);
the thinking case inspects the full unsorted item list. -/
def renderItem (jsonCommand : String → Option String) (allItems : List ChronItem)
    (it : ChronItem) : String :=
  match it.kind with
  | .tool_call => renderToolCallBlock it.name it.payload
  | .tool_result => renderToolResultBlock jsonCommand it.name it.payload
  | .thinking => renderThinkingBlock allItems it.payload

/-- The chronological section of the rendered body: the items sorted by
timestamp, each rendered, joined. -/
def chronologicalSection (jsonCommand : String → Option String) (s : AgentState) :
    String :=
  String.join ((sortItems s.items).map (renderItem jsonCommand s.items))

/-- The body published by `updateMessage`: the chronological section followed
by the final response accumulator, with the transient placeholder when that
concatenation is empty. -/
def renderBody (jsonCommand : String → Option String) (s : AgentState) : String :=
  let finalContent := chronologicalSection jsonCommand s ++ s.finalResponse
  if finalContent.data.isEmpty then (if s.isStreaming then "_AI is thinking..._" else "")
  else finalContent

/-- One `updateMessage` call as a state transformer: it publishes the
rendered body and leaves the aggregation state untouched (the sort acts on a
copy of the item list). -/
def renderStep (jsonCommand : String → Option String) (s : AgentState) :
    String × AgentState :=
  (renderBody jsonCommand s, s)

/-- A trivial instantiation of the JSON-command extraction, adequate for
concrete runs whose tool-result contents are not structured data. -/
def jsonCommandNone : String → Option String := fun _ => none

/-- Result of one `_sendAgentMessage` call: the final aggregation state, the
returned boolean, and the error messages emitted by the `catch` block. -/
structure AgentTurnResult where
  state : AgentState
  returned : Bool
  errorsEmitted : List IChatMessage
deriving DecidableEq

/-- `_sendAgentMessage`: consume the stream chunks from the initial
aggregation state over the given history buffer; on a thrown stream error
(user abort included — the catch does not distinguish) emit one error
message and return failure, otherwise return success. -/
def sendAgentMessage (clock : Nat → Int) (hist : List BaseMessage)
    (chunks : List AgentChunk) (outcome : StreamOutcome) (idErr : Nat) :
    AgentTurnResult :=
  let s := runAgentChunks clock (agentInit hist) chunks
  match outcome with
  | .completed => { state := s, returned := true, errorsEmitted := [] }
  | .errored reason _ =>
    { state := s, returned := false,
      errorsEmitted :=
        [{ id := idErr, body := "**" ++ formatErrorMessage reason ++ "**",
           sender := "ERROR" }] }

/-- The timestamps of the thinking items of an aggregation state, in item
order. -/
def thinkTs (s : AgentState) : List Int :=
  (s.items.filter isThinking).map (fun it => it.timestamp)

/-- The single-thinking-block invariant over an item list and the accumulated
`messageContent`: at most one thinking item exists, and every thinking item
carries the accumulated content as its payload. -/
def thinkingInvP (items : List ChronItem) (mc : String) : Prop :=
  items.countP isThinking ≤ 1 ∧
  ∀ it ∈ items, isThinking it = true → it.payload = mc

/-- The single-thinking-block invariant of an aggregation state. -/
def thinkingInv (s : AgentState) : Prop := thinkingInvP s.items s.messageContent

/-- The agent-mode stream of the spec example: a tool call to `A`, the tool
result of `A`, then the text `done`. -/
def exampleChunks : List AgentChunk :=
  [.agent [.ai [{ name := "A", args := "2" }] (.str "")],
   .tools [.tool "A" "ok"],
   .agent [.ai [] (.str "done")]]

/-- The chronological items accumulated from `exampleChunks` under the
constant clock (all timestamps deliberately tied). -/
def exampleItems : List ChronItem :=
  [{ kind := .tool_call, name := "A", payload := "2", timestamp := 0 },
   { kind := .tool_result, name := "A", payload := "ok", timestamp := 0 },
   { kind := .thinking, name := "", payload := "done", timestamp := 0 }]

/-- A concrete aggregation state holding one tool-call item, used by
witnesses. -/
def exampleToolState : AgentState :=
  { items := [{ kind := .tool_call, name := "A", payload := "2", timestamp := 0 }],
    finalResponse := "", messageContent := "", isStreaming := true, history := [],
    tick := 1 }

/-- A concrete aggregation state holding one thinking item, used by
witnesses. -/
def exampleThinkState : AgentState :=
  { items := [{ kind := .thinking, name := "", payload := "x", timestamp := 5 }],
    finalResponse := "", messageContent := "x", isStreaming := true, history := [],
    tick := 1 }

/-! ## Helper lemmas -/

theorem mem_upsertMessage_self (l : List IChatMessage) (m : IChatMessage) :
    m ∈ upsertMessage l m := by
  unfold upsertMessage
  by_cases h : l.any (fun x => x.id == m.id) = true
  · rw [if_pos h]
    obtain ⟨x, hx, hid⟩ := List.any_eq_true.mp h
    exact List.mem_map.mpr ⟨x, hx, by rw [if_pos hid]⟩
  · rw [if_neg h]
    exact List.mem_append_right _ (List.mem_singleton_self m)

theorem mem_upsertMessage_of_ne {l : List IChatMessage} {m : IChatMessage}
    (m2 : IChatMessage) (hm : m ∈ l) (hne : m.id ≠ m2.id) : m ∈ upsertMessage l m2 := by
  unfold upsertMessage
  by_cases h : l.any (fun x => x.id == m2.id) = true
  · rw [if_pos h]
    exact List.mem_map.mpr ⟨m, hm, by rw [if_neg (by simp [hne])]⟩
  · rw [if_neg h]
    exact List.mem_append_left _ hm

theorem countP_error_chatBotUpdates (idBot : Nat) (deltas : List String) :
    (chatBotUpdates idBot deltas).countP (fun m => m.sender == "ERROR") = 0 := by
  refine List.countP_eq_zero.mpr ?_
  intro m hm
  simp only [chatBotUpdates, List.mem_map, List.mem_range] at hm
  obtain ⟨k, _, rfl⟩ := hm
  simp

theorem final_bot_mem_foldl (idBot : Nat) (deltas : List String) (d : List IChatMessage)
    (hd : deltas ≠ []) :
    ({ id := idBot, body := String.join deltas, sender := "AI" } : IChatMessage)
      ∈ (chatBotUpdates idBot deltas).foldl upsertMessage d := by
  obtain ⟨n, hn⟩ : ∃ n, deltas.length = n + 1 := by
    cases deltas with
    | nil => exact absurd rfl hd
    | cons a l => exact ⟨l.length, rfl⟩
  have hsplit : chatBotUpdates idBot deltas
      = ((List.range n).map
          (fun k => ({ id := idBot, body := String.join (deltas.take (k + 1)),
                       sender := "AI" } : IChatMessage)))
        ++ [{ id := idBot, body := String.join deltas, sender := "AI" }] := by
    unfold chatBotUpdates
    rw [hn, List.range_succ, List.map_append]
    have htake : deltas.take (n + 1) = deltas := by
      rw [← hn, List.take_length]
    simp [htake]
  rw [hsplit, List.foldl_append]
  exact mem_upsertMessage_self _ _

/-! ## Claim theorems: chat-mode path -/

/-- C1: for every finite sequence of chat-mode stream deltas consumed without
error, the AI history entry appended at stream completion has text exactly
equal to the concatenation of the deltas, appended exactly once. -/
theorem chat_deltas_concat_once (st : HandlerState) (body em sp : String)
    (deltas : List String) (idBase : Nat)
    (hclear : jsStartsWith body "/clear" = false) :
    (sendMessageChat st body true em sp ⟨deltas, .completed⟩ idBase).state.history
      = st.history ++ [BaseMessage.human body,
                       BaseMessage.ai [] (.str (String.join deltas))] := by
  simp [sendMessageChat, hclear]

/-- Witness for C1 at the spec example: deltas `Hi`, ` there` commit the
single AI entry `Hi there` after the human entry. -/
theorem chat_deltas_concat_once_witness :
    jsStartsWith "Hello" "/clear" = false ∧
    (sendMessageChat ⟨[], []⟩ "Hello" true "" "p"
        ⟨["Hi", " there"], .completed⟩ 0).state.history
      = [BaseMessage.human "Hello", BaseMessage.ai [] (.str "Hi there")] := by
  refine ⟨by decide, ?_⟩
  rw [chat_deltas_concat_once ⟨[], []⟩ "Hello" "" "p" ["Hi", " there"] 0 (by decide)]
  decide

/-- C2: a message body starting with `/clear` (case-sensitive prefix match)
deletes all displayed messages, resets the history buffer to empty, emits
nothing, and returns failure without contacting any backend. -/
theorem clear_truncates (st : HandlerState) (body : String) (chatAvailable : Bool)
    (em sp : String) (stream : ChatStream) (idBase : Nat)
    (hclear : jsStartsWith body "/clear" = true) :
    sendMessageChat st body chatAvailable em sp stream idBase
      = { state := { displayed := [], history := [] }, returned := false,
          emitted := [], request := none } := by
  simp [sendMessageChat, hclear]

/-- Witness for C2 at body `/clear` over a nonempty state. -/
theorem clear_truncates_witness :
    jsStartsWith "/clear" "/clear" = true ∧
    sendMessageChat ⟨[{ id := 0, body := "x", sender := "User" }],
        [BaseMessage.human "x"]⟩ "/clear" true "e" "p" ⟨["d"], .completed⟩ 5
      = { state := { displayed := [], history := [] }, returned := false,
          emitted := [], request := none } :=
  ⟨by decide,
   clear_truncates ⟨[{ id := 0, body := "x", sender := "User" }],
     [BaseMessage.human "x"]⟩ "/clear" true "e" "p" ⟨["d"], .completed⟩ 5 (by decide)⟩

/-- C3: with no chat model resolved, `sendMessage` returns failure, emits the
user message and then exactly one error message carrying the registry
diagnostic or the generic fallback, displays the user message, and leaves the
history buffer unchanged without contacting a backend. -/
theorem no_backend_single_error (st : HandlerState) (body em sp : String)
    (stream : ChatStream) (idBase : Nat)
    (hclear : jsStartsWith body "/clear" = false) :
    (sendMessageChat st body false em sp stream idBase).returned = false ∧
    (sendMessageChat st body false em sp stream idBase).emitted
      = [userMsgOf body idBase,
         { id := idBase + 1, body := noBackendBody em, sender := "ERROR" }] ∧
    ((sendMessageChat st body false em sp stream idBase).emitted.countP
        (fun m => m.sender == "ERROR")) = 1 ∧
    userMsgOf body idBase ∈ (sendMessageChat st body false em sp stream idBase).state.displayed ∧
    (sendMessageChat st body false em sp stream idBase).state.history = st.history ∧
    (sendMessageChat st body false em sp stream idBase).request = none := by
  have hdisp : (sendMessageChat st body false em sp stream idBase).state.displayed
      = upsertMessage (upsertMessage st.displayed (userMsgOf body idBase))
          { id := idBase + 1, body := noBackendBody em, sender := "ERROR" } := by
    simp [sendMessageChat, hclear]
  refine ⟨by simp [sendMessageChat, hclear], by simp [sendMessageChat, hclear], ?_, ?_,
    by simp [sendMessageChat, hclear], by simp [sendMessageChat, hclear]⟩
  · simp [sendMessageChat, hclear, userMsgOf, List.countP_cons]
  · rw [hdisp]
    exact mem_upsertMessage_of_ne _ (mem_upsertMessage_self _ _) (by simp [userMsgOf])

/-- Witness for C3 at a concrete nonempty state with an empty registry
diagnostic (the generic fallback is used). -/
theorem no_backend_single_error_witness :
    jsStartsWith "hi" "/clear" = false ∧
    ((sendMessageChat ⟨[], [BaseMessage.human "x"]⟩ "hi" false "" "p"
        ⟨["d"], .completed⟩ 0).returned = false ∧
     (sendMessageChat ⟨[], [BaseMessage.human "x"]⟩ "hi" false "" "p"
        ⟨["d"], .completed⟩ 0).emitted
       = [userMsgOf "hi" 0,
          { id := 1, body := noBackendBody "", sender := "ERROR" }] ∧
     ((sendMessageChat ⟨[], [BaseMessage.human "x"]⟩ "hi" false "" "p"
        ⟨["d"], .completed⟩ 0).emitted.countP (fun m => m.sender == "ERROR")) = 1 ∧
     userMsgOf "hi" 0 ∈ (sendMessageChat ⟨[], [BaseMessage.human "x"]⟩ "hi" false "" "p"
        ⟨["d"], .completed⟩ 0).state.displayed ∧
     (sendMessageChat ⟨[], [BaseMessage.human "x"]⟩ "hi" false "" "p"
        ⟨["d"], .completed⟩ 0).state.history = [BaseMessage.human "x"] ∧
     (sendMessageChat ⟨[], [BaseMessage.human "x"]⟩ "hi" false "" "p"
        ⟨["d"], .completed⟩ 0).request = none) :=
  ⟨by decide,
   no_backend_single_error ⟨[], [BaseMessage.human "x"]⟩ "hi" "" "p"
     ⟨["d"], .completed⟩ 0 (by decide)⟩

/-- C4 counterexample: with history ending in a Human entry, the transmitted
request is NOT the run-collapsed form of `[System] + History + Human(new)` —
the new human message is pushed only after `mergeMessageRuns` has run, so the
request ends with two adjacent human entries. -/
theorem merge_rule_counterexample :
    (sendMessageChat ⟨[], [BaseMessage.human "a"]⟩ "b" true "" "s"
        ⟨[], .completed⟩ 0).request
      ≠ some (mergeMessageRuns ([BaseMessage.system "s"] ++ [BaseMessage.human "a"]
          ++ [BaseMessage.human "b"])) := by decide

/-- C4 amended: the outgoing request equals `mergeMessageRuns([System] +
History)` with the new Human message appended afterwards, unmerged — a
trailing Human history entry is not merged with the new message. -/
theorem request_merges_history_only (st : HandlerState) (body em sp : String)
    (stream : ChatStream) (idBase : Nat)
    (hclear : jsStartsWith body "/clear" = false) :
    (sendMessageChat st body true em sp stream idBase).request
      = some (mergeMessageRuns (BaseMessage.system sp :: st.history)
          ++ [BaseMessage.human body]) := by
  obtain ⟨deltas, outcome⟩ := stream
  cases outcome <;> simp [sendMessageChat, hclear]

/-- Witness for the amended C4 at the counterexample input. -/
theorem request_merges_history_only_witness :
    jsStartsWith "b" "/clear" = false ∧
    (sendMessageChat ⟨[], [BaseMessage.human "a"]⟩ "b" true "" "s"
        ⟨[], .completed⟩ 0).request
      = some (mergeMessageRuns (BaseMessage.system "s" :: [BaseMessage.human "a"])
          ++ [BaseMessage.human "b"]) :=
  ⟨by decide,
   request_merges_history_only ⟨[], [BaseMessage.human "a"]⟩ "b" "" "s"
     ⟨[], .completed⟩ 0 (by decide)⟩

/-- C5: the new Human entry is appended to the history buffer before the
stream is consumed, and a chat-mode stream failure appends no assistant
entry: the history after failure is exactly the prior history plus the one
Human entry, and the turn returns failure. -/
theorem human_appended_stream_error_atomic (st : HandlerState) (body em sp : String)
    (deltas : List String) (reason : String) (cancelled : Bool) (idBase : Nat)
    (hclear : jsStartsWith body "/clear" = false) :
    (sendMessageChat st body true em sp ⟨deltas, .errored reason cancelled⟩
        idBase).state.history = st.history ++ [BaseMessage.human body] ∧
    (sendMessageChat st body true em sp ⟨deltas, .errored reason cancelled⟩
        idBase).returned = false := by
  constructor <;> simp [sendMessageChat, hclear]

/-- Witness for C5: a stream that yields one delta and then throws leaves
only the human entry appended. -/
theorem human_appended_stream_error_atomic_witness :
    jsStartsWith "hi" "/clear" = false ∧
    ((sendMessageChat ⟨[], [BaseMessage.human "x"]⟩ "hi" true "" "p"
        ⟨["d"], .errored "boom" false⟩ 0).state.history
       = [BaseMessage.human "x"] ++ [BaseMessage.human "hi"] ∧
     (sendMessageChat ⟨[], [BaseMessage.human "x"]⟩ "hi" true "" "p"
        ⟨["d"], .errored "boom" false⟩ 0).returned = false) :=
  ⟨by decide,
   human_appended_stream_error_atomic ⟨[], [BaseMessage.human "x"]⟩ "hi" "" "p"
     ["d"] "boom" false 0 (by decide)⟩

/-- C6 counterexample: a turn aborted via `stopStreaming` (the stream throws
with the cancelled flag set) DOES display an error message — the catch block
does not distinguish an abort from any other stream failure, so the count of
error-sender messages emitted is not zero. -/
theorem cancelled_turn_counterexample :
    ¬(((sendMessageChat ⟨[], []⟩ "hi" true "" "p"
          ⟨["Hi"], .errored "Aborted" true⟩ 0).emitted.countP
        (fun m => m.sender == "ERROR")) = 0) := by decide

/-- C6 amended: a turn aborted via `stopStreaming` takes the generic stream
error path in both modes: exactly one error message is emitted, the partial
content already rendered stands as-is (the bot message holding the
concatenation of the consumed deltas stays displayed, and in agent mode the
aggregation state is exactly the one a completed run of the same chunks
produces), no assistant entry is appended beyond the already-committed
entries, and the turn returns failure. -/
theorem cancelled_turn_error_path (st : HandlerState) (body em sp : String)
    (deltas : List String) (reason : String) (idBase : Nat)
    (clock : Nat → Int) (hist : List BaseMessage) (chunks : List AgentChunk)
    (idErr : Nat) (hclear : jsStartsWith body "/clear" = false)
    (hd : deltas ≠ []) :
    ((sendMessageChat st body true em sp ⟨deltas, .errored reason true⟩
        idBase).emitted.countP (fun m => m.sender == "ERROR")) = 1 ∧
    (sendMessageChat st body true em sp ⟨deltas, .errored reason true⟩
        idBase).state.history = st.history ++ [BaseMessage.human body] ∧
    (sendMessageChat st body true em sp ⟨deltas, .errored reason true⟩
        idBase).returned = false ∧
    ({ id := idBase + 1, body := String.join deltas, sender := "AI" } : IChatMessage)
      ∈ (sendMessageChat st body true em sp ⟨deltas, .errored reason true⟩
          idBase).state.displayed ∧
    ((sendAgentMessage clock hist chunks (.errored reason true) idErr).errorsEmitted.countP
        (fun m => m.sender == "ERROR")) = 1 ∧
    (sendAgentMessage clock hist chunks (.errored reason true) idErr).state
      = (sendAgentMessage clock hist chunks .completed idErr).state ∧
    (sendAgentMessage clock hist chunks (.errored reason true) idErr).returned
      = false := by
  have hdisp : (sendMessageChat st body true em sp ⟨deltas, .errored reason true⟩
        idBase).state.displayed
      = upsertMessage
          ((chatBotUpdates (idBase + 1) deltas).foldl upsertMessage
            (upsertMessage st.displayed (userMsgOf body idBase)))
          { id := idBase + 2, body := "**" ++ formatErrorMessage reason ++ "**",
            sender := "ERROR" } := by
    simp [sendMessageChat, hclear]
  refine ⟨?_, by simp [sendMessageChat, hclear], by simp [sendMessageChat, hclear],
    ?_, by simp [sendAgentMessage, List.countP_cons], rfl, rfl⟩
  · simp [sendMessageChat, hclear, userMsgOf, List.countP_append, List.countP_cons,
      countP_error_chatBotUpdates]
  · rw [hdisp]
    exact mem_upsertMessage_of_ne _ (final_bot_mem_foldl _ _ _ hd) (by simp)

/-- Witness for the amended C6 at a concrete cancelled run. -/
theorem cancelled_turn_error_path_witness :
    jsStartsWith "hi" "/clear" = false ∧ (["Hi"] : List String) ≠ [] ∧
    (((sendMessageChat ⟨[], []⟩ "hi" true "" "p"
          ⟨["Hi"], .errored "Aborted" true⟩ 0).emitted.countP
        (fun m => m.sender == "ERROR")) = 1 ∧
     (sendMessageChat ⟨[], []⟩ "hi" true "" "p" ⟨["Hi"], .errored "Aborted" true⟩
        0).state.history = [] ++ [BaseMessage.human "hi"] ∧
     (sendMessageChat ⟨[], []⟩ "hi" true "" "p" ⟨["Hi"], .errored "Aborted" true⟩
        0).returned = false ∧
     ({ id := 1, body := String.join ["Hi"], sender := "AI" } : IChatMessage)
       ∈ (sendMessageChat ⟨[], []⟩ "hi" true "" "p"
           ⟨["Hi"], .errored "Aborted" true⟩ 0).state.displayed ∧
     ((sendAgentMessage (fun _ => 0) [] [] (.errored "Aborted" true)
          7).errorsEmitted.countP (fun m => m.sender == "ERROR")) = 1 ∧
     (sendAgentMessage (fun _ => 0) [] [] (.errored "Aborted" true) 7).state
       = (sendAgentMessage (fun _ => 0) [] [] .completed 7).state ∧
     (sendAgentMessage (fun _ => 0) [] [] (.errored "Aborted" true) 7).returned
       = false) :=
  ⟨by decide, by decide,
   cancelled_turn_error_path ⟨[], []⟩ "hi" "" "p" ["Hi"] "Aborted" 0
     (fun _ => 0) [] [] 7 (by decide) (by decide)⟩

/-! ## Claim theorems: agent-mode rendering -/

set_option maxRecDepth 100000 in
/-- C7: every render sorts the non-final-answer chronological items by
arrival timestamp with ties broken by arrival order (the sort is a sorted,
permutation-producing, order-preserving-on-ties rearrangement), appends the
final-answer accumulator after all of them, and on the example stream
[tool call A, tool result A, text done] with deliberately tied timestamps
the body is the tool-call block, then the tool-result block, then the block
holding `done`. -/
theorem chronological_render_order :
    (∀ items : List ChronItem,
        List.Sorted tsLE (sortItems items) ∧ (sortItems items).Perm items ∧
        (List.Sorted tsLE items → sortItems items = items)) ∧
    (∀ (jc : String → Option String) (items : List ChronItem) (fr mc : String)
        (b : Bool) (hist : List BaseMessage) (tick : Nat), fr ≠ "" →
        renderBody jc ⟨items, fr, mc, b, hist, tick⟩
          = chronologicalSection jc ⟨items, fr, mc, b, hist, tick⟩ ++ fr) ∧
    ((runAgentChunks (fun _ => 0) (agentInit []) exampleChunks).items
        = exampleItems ∧
     renderBody jsonCommandNone (runAgentChunks (fun _ => 0) (agentInit []) exampleChunks)
       = renderToolCallBlock "A" "2"
         ++ renderToolResultBlock jsonCommandNone "A" "ok"
         ++ renderThinkingBlock exampleItems "done") := by
  refine ⟨?_, ?_, by decide, by decide⟩
  · intro items
    exact ⟨List.sorted_insertionSort tsLE items, List.perm_insertionSort tsLE items,
      fun h => h.insertionSort_eq⟩
  · intro jc items fr mc b hist tick hfr
    unfold renderBody
    rw [if_neg]
    intro hemp
    apply hfr
    have : (chronologicalSection jc ⟨items, fr, mc, b, hist, tick⟩ ++ fr).data = [] := by
      simpa [List.isEmpty_iff] using hemp
    rw [String.data_append] at this
    exact String.ext (List.append_eq_nil.mp this).2

/-- Witness for C7: a sorted item list is left unchanged by the sort, and a
state with a non-empty final response renders it appended after the
chronological section. -/
theorem chronological_render_order_witness :
    List.Sorted tsLE exampleItems ∧ sortItems exampleItems = exampleItems ∧
    ("done" : String) ≠ "" ∧
    renderBody jsonCommandNone ⟨[], "done", "", true, [], 0⟩
      = chronologicalSection jsonCommandNone ⟨[], "done", "", true, [], 0⟩
        ++ "done" := by
  have hs : List.Sorted tsLE exampleItems := by decide
  exact ⟨hs, (chronological_render_order.1 exampleItems).2.2 hs, by decide,
    chronological_render_order.2.1 jsonCommandNone [] "done" "" true [] 0 (by decide)⟩

/-- C8: rendering is idempotent and deterministic — one `updateMessage` call
does not mutate the aggregation state (the sort acts on a copy), a second
render with no intervening events produces an identical body string, and the
body depends only on the accumulated items, the final-response accumulator
and the streaming flag. -/
theorem render_idempotent_deterministic :
    (∀ (jc : String → Option String) (s : AgentState),
        (renderStep jc (renderStep jc s).2).1 = (renderStep jc s).1 ∧
        (renderStep jc s).2 = s) ∧
    (∀ (jc : String → Option String) (s1 s2 : AgentState),
        s1.items = s2.items → s1.finalResponse = s2.finalResponse →
        s1.isStreaming = s2.isStreaming → renderBody jc s1 = renderBody jc s2) := by
  refine ⟨fun jc s => ⟨rfl, rfl⟩, ?_⟩
  intro jc s1 s2 h1 h2 h3
  obtain ⟨i1, f1, m1, b1, hh1, t1⟩ := s1
  obtain ⟨i2, f2, m2, b2, hh2, t2⟩ := s2
  simp only at h1 h2 h3
  subst h1; subst h2; subst h3
  rfl

/-- Witness for C8: two states agreeing on items, final response and
streaming flag render identically even though the other fields differ. -/
theorem render_idempotent_deterministic_witness :
    (exampleItems = exampleItems ∧ ("f" : String) = "f" ∧ true = true) ∧
    renderBody jsonCommandNone ⟨exampleItems, "f", "a", true, [], 3⟩
      = renderBody jsonCommandNone
          ⟨exampleItems, "f", "bb", true, [BaseMessage.human "h"], 9⟩ :=
  ⟨⟨rfl, rfl, rfl⟩,
   render_idempotent_deterministic.2 jsonCommandNone
     ⟨exampleItems, "f", "a", true, [], 3⟩
     ⟨exampleItems, "f", "bb", true, [BaseMessage.human "h"], 9⟩ rfl rfl rfl⟩

theorem any_thinking_updateFirstThinking (c : String) (l : List ChronItem)
    (h : l.any isThinking = true) : (updateFirstThinking c l).any isThinking = true := by
  induction l with
  | nil => exact h
  | cons it rest ih =>
    unfold updateFirstThinking
    by_cases hit : isThinking it = true
    · rw [if_pos hit, List.any_cons]
      simp only [Bool.or_eq_true]
      exact Or.inl hit
    · have hif : isThinking it = false := by
        revert hit; cases isThinking it <;> simp
      rw [if_neg hit, List.any_cons]
      rw [List.any_cons, hif, Bool.false_or] at h
      simp only [Bool.or_eq_true]
      exact Or.inr (ih h)

/-- C9 counterexample: an AI entry carrying the non-empty text `" "` (one
space) and arriving when no tool item exists is NOT appended to the
final-response accumulator — the code drops whitespace-only text entirely
because it gates on `content.trim()`. -/
theorem text_classification_counterexample :
    (" " : String) ≠ "" ∧ hasToolItem (agentInit []).items = false ∧
    (processContent (fun _ => 0) (agentInit []) " ").finalResponse
      ≠ (agentInit []).finalResponse ++ " " := by decide

/-- C9 amended: for AI text containing at least one non-whitespace character
(the `content.trim()` gate), the text is classified as thinking exactly when
a tool-call or tool-result item already exists — the final response is left
alone and the accumulated narration is carried by a thinking item —
otherwise it is appended to the final-response accumulator and the items are
untouched; whitespace-only text is dropped entirely. -/
theorem text_classification_amended (clock : Nat → Int) (s : AgentState) (c : String)
    (hc : hasNonWhitespace c = true) :
    (hasToolItem s.items = true →
        (processContent clock s c).finalResponse = s.finalResponse ∧
        (processContent clock s c).messageContent = s.messageContent ++ c ∧
        (processContent clock s c).items.any isThinking = true) ∧
    (hasToolItem s.items = false →
        processContent clock s c
          = { s with finalResponse := s.finalResponse ++ c, isStreaming := true }) := by
  constructor
  · intro ht
    by_cases hth : s.items.any isThinking = true
    · unfold processContent
      rw [if_pos hc, if_pos ht, if_pos hth]
      exact ⟨rfl, rfl, any_thinking_updateFirstThinking _ _ hth⟩
    · unfold processContent
      rw [if_pos hc, if_pos ht, if_neg hth]
      refine ⟨rfl, rfl, ?_⟩
      simp [List.any_append, isThinking]
  · intro ht
    unfold processContent
    rw [if_pos hc, if_neg (by simp [ht])]

/-- Witness for the amended C9: with a tool-call item already present, the
text `done` becomes narration (a thinking item), not final response. -/
theorem text_classification_amended_witness :
    hasNonWhitespace "done" = true ∧
    hasToolItem exampleToolState.items = true ∧
    ((processContent (fun _ => 0) exampleToolState "done").finalResponse
        = exampleToolState.finalResponse ∧
     (processContent (fun _ => 0) exampleToolState "done").messageContent
        = exampleToolState.messageContent ++ "done" ∧
     (processContent (fun _ => 0) exampleToolState "done").items.any isThinking
        = true) :=
  ⟨by decide, by decide,
   (text_classification_amended (fun _ => 0) exampleToolState "done"
     (by decide)).1 (by decide)⟩

theorem foldl_preserve {α β : Type _} {P : β → Prop} {f : β → α → β}
    (hf : ∀ s a, P s → P (f s a)) : ∀ (l : List α) (s : β), P s → P (l.foldl f s) := by
  intro l
  induction l with
  | nil => intro s h; exact h
  | cons a t ih => intro s h; rw [List.foldl_cons]; exact ih _ (hf s a h)

theorem foldl_eq_of_step_eq {α β γ : Type _} {g : β → γ} {f : β → α → β}
    (hf : ∀ s a, g (f s a) = g s) : ∀ (l : List α) (s : β), g (l.foldl f s) = g s := by
  intro l
  induction l with
  | nil => intro s; rfl
  | cons a t ih => intro s; rw [List.foldl_cons, ih, hf]

theorem foldl_preserve_eq {α β γ : Type _} {g : β → γ} {emp : γ} {f : β → α → β}
    (hf : ∀ s a, g s ≠ emp → g (f s a) = g s) :
    ∀ (l : List α) (s : β), g s ≠ emp → g (l.foldl f s) = g s := by
  intro l
  induction l with
  | nil => intro s _; rfl
  | cons a t ih =>
    intro s h
    rw [List.foldl_cons, ih (f s a) (by rw [hf s a h]; exact h), hf s a h]

theorem foldl_grow {α β : Type _} {g : β → String} {f : β → α → β}
    (hf : ∀ s a, ∃ t, g (f s a) = g s ++ t) :
    ∀ (l : List α) (s : β), ∃ t, g (l.foldl f s) = g s ++ t := by
  intro l
  induction l with
  | nil => intro s; exact ⟨"", (String.append_empty _).symm⟩
  | cons a tl ih =>
    intro s
    obtain ⟨t1, h1⟩ := hf s a
    obtain ⟨t2, h2⟩ := ih (f s a)
    exact ⟨t1 ++ t2, by rw [List.foldl_cons, h2, h1, String.append_assoc]⟩

theorem countP_updateFirstThinking (c : String) (l : List ChronItem) :
    (updateFirstThinking c l).countP isThinking = l.countP isThinking := by
  induction l with
  | nil => rfl
  | cons it rest ih =>
    unfold updateFirstThinking
    by_cases hit : isThinking it = true
    · rw [if_pos hit]
      have h2 : isThinking { it with payload := c } = true := hit
      simp [List.countP_cons, h2, hit]
    · rw [if_neg hit]
      simp [List.countP_cons, ih]

theorem payload_updateFirstThinking (c : String) (l : List ChronItem)
    (hc1 : l.countP isThinking ≤ 1) :
    ∀ it ∈ updateFirstThinking c l, isThinking it = true → it.payload = c := by
  induction l with
  | nil => intro it hit; exact absurd hit (List.not_mem_nil it)
  | cons a rest ih =>
    intro it hit hth
    by_cases ha : isThinking a = true
    · unfold updateFirstThinking at hit
      rw [if_pos ha] at hit
      rcases List.mem_cons.mp hit with h | h
      · rw [h]
      · exfalso
        have h0 : rest.countP isThinking = 0 := by
          rw [List.countP_cons_of_pos _ _ ha] at hc1
          omega
        exact List.countP_eq_zero.mp h0 it h hth
    · have hf : isThinking a = false := by revert ha; cases isThinking a <;> simp
      unfold updateFirstThinking at hit
      rw [if_neg ha] at hit
      rcases List.mem_cons.mp hit with h | h
      · rw [h] at hth; rw [hf] at hth; cases hth
      · refine ih ?_ it h hth
        rw [List.countP_cons_of_neg _ _ (by simp [hf])] at hc1
        exact hc1

theorem filter_map_ts_updateFirstThinking (c : String) (l : List ChronItem) :
    ((updateFirstThinking c l).filter isThinking).map (fun x => x.timestamp)
      = (l.filter isThinking).map (fun x => x.timestamp) := by
  induction l with
  | nil => rfl
  | cons a rest ih =>
    unfold updateFirstThinking
    by_cases ha : isThinking a = true
    · rw [if_pos ha]
      have h2 : isThinking { a with payload := c } = true := ha
      rw [List.filter_cons_of_pos h2, List.filter_cons_of_pos ha]
      rfl
    · have hf : isThinking a = false := by revert ha; cases isThinking a <;> simp
      rw [if_neg ha, List.filter_cons_of_neg (by simp [hf]),
        List.filter_cons_of_neg (by simp [hf])]
      exact ih

theorem filter_map_ts_append_nonthinking (l : List ChronItem) (it : ChronItem)
    (hit : isThinking it = false) :
    ((l ++ [it]).filter isThinking).map (fun x => x.timestamp)
      = (l.filter isThinking).map (fun x => x.timestamp) := by
  rw [List.filter_append, List.filter_cons_of_neg (by simp [hit]), List.filter_nil,
    List.append_nil]

theorem any_of_thinkTs_ne (s : AgentState) (h : thinkTs s ≠ []) :
    s.items.any isThinking = true := by
  by_contra hany
  apply h
  unfold thinkTs
  have hnil : s.items.filter isThinking = [] := by
    refine List.filter_eq_nil_iff.mpr ?_
    intro a ha hcon
    exact hany (List.any_eq_true.mpr ⟨a, ha, hcon⟩)
  rw [hnil]
  rfl

theorem invP_append_nonthinking {items : List ChronItem} {mc : String}
    (h : thinkingInvP items mc) (it : ChronItem) (hit : isThinking it = false) :
    thinkingInvP (items ++ [it]) mc := by
  constructor
  · simp only [List.countP_append, List.countP_cons, List.countP_nil, hit]
    simpa using h.1
  · intro x hx hthx
    rcases List.mem_append.mp hx with hm | hm
    · exact h.2 x hm hthx
    · rw [List.mem_singleton.mp hm] at hthx
      rw [hit] at hthx
      cases hthx

theorem inv_processContent (clock : Nat → Int) (s : AgentState) (c : String)
    (h : thinkingInv s) : thinkingInv (processContent clock s c) := by
  unfold thinkingInv thinkingInvP at h ⊢
  unfold processContent
  by_cases hws : hasNonWhitespace c = true
  case neg => rw [if_neg hws]; exact h
  rw [if_pos hws]
  by_cases ht : hasToolItem s.items = true
  case neg => rw [if_neg ht]; exact h
  rw [if_pos ht]
  by_cases hth : s.items.any isThinking = true
  · rw [if_pos hth]
    constructor
    · show (updateFirstThinking (s.messageContent ++ c) s.items).countP isThinking ≤ 1
      rw [countP_updateFirstThinking]
      exact h.1
    · intro it hit hthk
      exact payload_updateFirstThinking _ _ h.1 it hit hthk
  · rw [if_neg hth]
    constructor
    · show (s.items ++ [_]).countP isThinking ≤ 1
      have h0 : s.items.countP isThinking = 0 := by
        refine List.countP_eq_zero.mpr ?_
        intro a ha hcon
        exact hth (List.any_eq_true.mpr ⟨a, ha, hcon⟩)
      simp [List.countP_append, List.countP_cons, List.countP_nil, h0, isThinking]
    · intro it hit hthk
      rcases List.mem_append.mp hit with hm | hm
      · exact absurd (List.any_eq_true.mpr ⟨it, hm, hthk⟩) hth
      · rw [List.mem_singleton.mp hm]

theorem inv_pushToolCalls (clock : Nat → Int) (tcs : List ToolCall) (s : AgentState)
    (h : thinkingInv s) : thinkingInv (pushToolCalls clock s tcs) := by
  unfold pushToolCalls
  exact foldl_preserve
    (fun s tc hs => invP_append_nonthinking hs
      { kind := .tool_call, name := tc.name, payload := tc.args,
        timestamp := clock s.tick } rfl)
    tcs s h

theorem inv_aiToolCallStep (clock : Nat → Int) (s : AgentState) (tcs : List ToolCall)
    (h : thinkingInv s) : thinkingInv (aiToolCallStep clock s tcs) := by
  unfold aiToolCallStep
  by_cases he : (!tcs.isEmpty) = true
  · rw [if_pos he]
    exact inv_pushToolCalls clock tcs s h
  · rw [if_neg he]
    exact h

theorem inv_processAIMessage (clock : Nat → Int) (s : AgentState) (tcs : List ToolCall)
    (content : MsgContent) (h : thinkingInv s) :
    thinkingInv (processAIMessage clock s tcs content) := by
  unfold processAIMessage
  by_cases hct : contentTruthy content = true
  · rw [if_pos hct]
    exact foldl_preserve (fun s c hs => inv_processContent clock s c hs) _ _
      (inv_aiToolCallStep clock _ tcs h)
  · rw [if_neg hct]
    exact inv_aiToolCallStep clock _ tcs h

theorem inv_processToolMessage (clock : Nat → Int) (s : AgentState)
    (name content : String) (h : thinkingInv s) :
    thinkingInv (processToolMessage clock s name content) :=
  invP_append_nonthinking h _ rfl

theorem inv_processChunk (clock : Nat → Int) (s : AgentState) (ch : AgentChunk)
    (h : thinkingInv s) : thinkingInv (processChunk clock s ch) := by
  cases ch with
  | agent msgs =>
    refine foldl_preserve ?_ msgs s h
    intro s m hs
    cases m with
    | ai tcs content => exact inv_processAIMessage clock s tcs content hs
    | tool name content => exact inv_processToolMessage clock s name content hs
  | tools msgs =>
    refine foldl_preserve ?_ msgs s h
    intro s m hs
    cases m with
    | ai tcs content => exact hs
    | tool name content => exact inv_processToolMessage clock s name content hs

theorem inv_runAgentChunks (clock : Nat → Int) (hist : List BaseMessage)
    (chunks : List AgentChunk) :
    thinkingInv (runAgentChunks clock (agentInit hist) chunks) := by
  unfold runAgentChunks
  refine foldl_preserve (fun s ch hs => inv_processChunk clock s ch hs) chunks _ ?_
  exact ⟨Nat.zero_le 1, fun it hit => absurd hit (List.not_mem_nil it)⟩

theorem thinkTs_processContent (clock : Nat → Int) (s : AgentState) (c : String)
    (h : thinkTs s ≠ []) : thinkTs (processContent clock s c) = thinkTs s := by
  unfold processContent
  by_cases hws : hasNonWhitespace c = true
  case neg => rw [if_neg hws]
  rw [if_pos hws]
  by_cases ht : hasToolItem s.items = true
  case neg => rw [if_neg ht]; rfl
  rw [if_pos ht, if_pos (any_of_thinkTs_ne s h)]
  exact filter_map_ts_updateFirstThinking _ _

theorem thinkTs_pushToolCalls (clock : Nat → Int) (tcs : List ToolCall) :
    ∀ s : AgentState, thinkTs (pushToolCalls clock s tcs) = thinkTs s := by
  induction tcs with
  | nil => intro s; rfl
  | cons tc rest ih =>
    intro s
    have step : pushToolCalls clock s (tc :: rest)
        = pushToolCalls clock
            { s with items := s.items ++ [{ kind := .tool_call, name := tc.name, payload := tc.args, timestamp := clock s.tick }],
                     tick := s.tick + 1 } rest := rfl
    rw [step, ih]
    exact filter_map_ts_append_nonthinking s.items _ rfl

theorem thinkTs_aiToolCallStep (clock : Nat → Int) (s : AgentState)
    (tcs : List ToolCall) : thinkTs (aiToolCallStep clock s tcs) = thinkTs s := by
  unfold aiToolCallStep
  by_cases he : (!tcs.isEmpty) = true
  · rw [if_pos he]
    exact thinkTs_pushToolCalls clock tcs s
  · rw [if_neg he]

theorem thinkTs_processToolMessage (clock : Nat → Int) (s : AgentState)
    (name content : String) :
    thinkTs (processToolMessage clock s name content) = thinkTs s :=
  filter_map_ts_append_nonthinking s.items _ rfl

theorem thinkTs_processAIMessage (clock : Nat → Int) (s : AgentState)
    (tcs : List ToolCall) (content : MsgContent) (h : thinkTs s ≠ []) :
    thinkTs (processAIMessage clock s tcs content) = thinkTs s := by
  unfold processAIMessage
  have e1 : thinkTs (aiToolCallStep clock (aiHistoryStep s tcs content) tcs)
      = thinkTs s := thinkTs_aiToolCallStep clock _ tcs
  by_cases hct : contentTruthy content = true
  · rw [if_pos hct]
    rw [foldl_preserve_eq (fun s c hs => thinkTs_processContent clock s c hs) _ _
      (by rw [e1]; exact h)]
    exact e1
  · rw [if_neg hct]
    exact e1

theorem thinkTs_processChunk (clock : Nat → Int) (s : AgentState) (ch : AgentChunk)
    (h : thinkTs s ≠ []) : thinkTs (processChunk clock s ch) = thinkTs s := by
  cases ch with
  | agent msgs =>
    refine foldl_preserve_eq ?_ msgs s h
    intro s m hs
    cases m with
    | ai tcs content => exact thinkTs_processAIMessage clock s tcs content hs
    | tool name content => exact thinkTs_processToolMessage clock s name content
  | tools msgs =>
    refine foldl_preserve_eq ?_ msgs s h
    intro s m hs
    cases m with
    | ai tcs content => rfl
    | tool name content => exact thinkTs_processToolMessage clock s name content

theorem mc_processContent (clock : Nat → Int) (s : AgentState) (c : String) :
    ∃ t, (processContent clock s c).messageContent = s.messageContent ++ t := by
  unfold processContent
  by_cases hws : hasNonWhitespace c = true
  case neg => rw [if_neg hws]; exact ⟨"", (String.append_empty _).symm⟩
  rw [if_pos hws]
  by_cases ht : hasToolItem s.items = true
  case neg => rw [if_neg ht]; exact ⟨"", (String.append_empty _).symm⟩
  rw [if_pos ht]
  by_cases hth : s.items.any isThinking = true
  · rw [if_pos hth]; exact ⟨c, rfl⟩
  · rw [if_neg hth]; exact ⟨c, rfl⟩

theorem mc_pushToolCalls (clock : Nat → Int) (tcs : List ToolCall) :
    ∀ s : AgentState, (pushToolCalls clock s tcs).messageContent = s.messageContent := by
  induction tcs with
  | nil => intro s; rfl
  | cons tc rest ih =>
    intro s
    have step : pushToolCalls clock s (tc :: rest)
        = pushToolCalls clock
            { s with items := s.items ++ [{ kind := .tool_call, name := tc.name, payload := tc.args, timestamp := clock s.tick }],
                     tick := s.tick + 1 } rest := rfl
    rw [step, ih]

theorem mc_aiToolCallStep (clock : Nat → Int) (s : AgentState) (tcs : List ToolCall) :
    (aiToolCallStep clock s tcs).messageContent = s.messageContent := by
  unfold aiToolCallStep
  by_cases he : (!tcs.isEmpty) = true
  · rw [if_pos he]
    exact mc_pushToolCalls clock tcs s
  · rw [if_neg he]

theorem mc_processAIMessage (clock : Nat → Int) (s : AgentState) (tcs : List ToolCall)
    (content : MsgContent) :
    ∃ t, (processAIMessage clock s tcs content).messageContent
      = s.messageContent ++ t := by
  unfold processAIMessage
  have e1 : (aiToolCallStep clock (aiHistoryStep s tcs content) tcs).messageContent
      = s.messageContent := mc_aiToolCallStep clock _ tcs
  by_cases hct : contentTruthy content = true
  · rw [if_pos hct]
    obtain ⟨t, ht⟩ := foldl_grow (fun s c => mc_processContent clock s c)
      (extractContents content) (aiToolCallStep clock (aiHistoryStep s tcs content) tcs)
    exact ⟨t, by rw [ht, e1]⟩
  · rw [if_neg hct]
    exact ⟨"", by rw [e1, String.append_empty]⟩

theorem mc_processChunk (clock : Nat → Int) (s : AgentState) (ch : AgentChunk) :
    ∃ t, (processChunk clock s ch).messageContent = s.messageContent ++ t := by
  cases ch with
  | agent msgs =>
    refine foldl_grow ?_ msgs s
    intro s m
    cases m with
    | ai tcs content => exact mc_processAIMessage clock s tcs content
    | tool name content => exact ⟨"", (String.append_empty _).symm⟩
  | tools msgs =>
    refine foldl_grow ?_ msgs s
    intro s m
    cases m with
    | ai tcs content => exact ⟨"", (String.append_empty _).symm⟩
    | tool name content => exact ⟨"", (String.append_empty _).symm⟩

/-- C10: within a single agent-mode turn the aggregation holds at most one
thinking item, whose content is the accumulated narration text (the
accumulator only ever grows by appending later thinking text); and once a
thinking item exists, consuming further stream chunks never changes the
timestamps of the thinking items — the single narration block keeps the
timestamp of the first thinking text. -/
theorem single_thinking_block :
    (∀ (clock : Nat → Int) (hist : List BaseMessage) (chunks : List AgentChunk),
        (runAgentChunks clock (agentInit hist) chunks).items.countP isThinking ≤ 1 ∧
        ∀ it ∈ (runAgentChunks clock (agentInit hist) chunks).items,
          isThinking it = true →
            it.payload = (runAgentChunks clock (agentInit hist) chunks).messageContent) ∧
    (∀ (clock : Nat → Int) (s : AgentState) (ch : AgentChunk),
        thinkTs s ≠ [] → thinkTs (processChunk clock s ch) = thinkTs s) ∧
    (∀ (clock : Nat → Int) (s : AgentState) (ch : AgentChunk),
        ∃ t, (processChunk clock s ch).messageContent = s.messageContent ++ t) :=
  ⟨fun clock hist chunks => inv_runAgentChunks clock hist chunks,
   fun clock s ch h => thinkTs_processChunk clock s ch h,
   fun clock s ch => mc_processChunk clock s ch⟩

/-- Witness for C10: a state already holding a thinking item stamped 5 keeps
exactly that timestamp list after consuming a further tool-result chunk. -/
theorem single_thinking_block_witness :
    thinkTs exampleThinkState ≠ [] ∧
    thinkTs (processChunk (fun _ => 0) exampleThinkState (.tools [.tool "T" "r"]))
      = thinkTs exampleThinkState :=
  ⟨by decide,
   single_thinking_block.2.1 (fun _ => 0) exampleThinkState
     (.tools [.tool "T" "r"]) (by decide)⟩

end JLAI
